import Mathlib

/-!
Verification of the bithoven position ledger, key-fleet coordinator and rule queue.

Shallow embedding of the core state-manipulating code of the bithoven trading
bot, together with proofs of the specified properties.

Embedded components (each definition is translated from the named source
function):

* `JSONStore` (src/config/chainConfig.js, second module `jsonStore.js`):
  `addGamerBatch`, `updateGamerBatch`, `getBatchFilesInAscendingOrder`,
  `getLatestBlockNum`.  The file system layout (one `batch_<n>.json` per lot
  in the holder/gamer directory, archived lots moved to the archive
  directory) is modelled as association lists keyed by batch number.
* `ChainIndexer` (ChainIndexer.js): `storeEventDetails` (buy and FIFO sell
  paths), `catchupIndex`'s resume-block computation and `fetchEvents`.
* `TxGofer` (src/fleet/txGofer.js): pending-order files, `recordPendingOrder`,
  `markMinedOrder`, `refreshPendingOrder`, `selectNextFreeKeySlot` with the
  low-balance cache.
* `TaskQueue` (taskQueue.js) and the shared rule queue (rulesEngineLib.js).
* The sell-quantity re-validation of `SellGofer.processSellAlerts`
  (src/scripts/tradesExecution/sellGofer.js).

JavaScript numbers and BigNumber amounts are modelled as `Int` (all amounts
in the relevant code paths are far below 2^53, and BigNumber is arbitrary
precision); block numbers, nonces and batch numbers as `Nat`; fallible
operations return `Except JSONStoreErr`.
-/

namespace Bithoven

/-! ## chainConfig.js : the `base` network configuration constants -/

/-- Embeds the `base` entry of `configs` in src/config/chainConfig.js
(the fields used by the indexer and the transaction coordinator). -/
structure ChainConfig where
  batchSize : Nat
  startBlock : Nat
  catchUpDelta : Nat
  maxPendingInSeconds : Nat
deriving Repr, DecidableEq

/-- The active configuration, `configs.base`. -/
def baseConfig : ChainConfig :=
  { batchSize := 1000
    startBlock := 15992772
    catchUpDelta := 40
    maxPendingInSeconds := 120 }

/-! ## storeErrors.js / JSONStore error codes

`JSONStoreTxHistoryError` carries a string `code`; the codes thrown by the
embedded functions are enumerated here. -/

inductive JSONStoreErr where
  | BATCH_NOT_FOUND
  | INSUFFICIENT_BITS
  | INVALID_BLOCK_NUMBER
  | BLOCK_NUMBER_NOT_INCREMENTED
  | ADD_BATCH_FAILED
  | READ_BATCH_FAILED
deriving Repr, DecidableEq

/-! ## jsonStore.js : the batch (lot) record -/

/-- One `batch_<n>.json` file: a purchase lot for a (holder, gamer) pair.
Field names follow the JSON keys written by `ChainIndexer.storeEventDetails`
and mutated by `JSONStore.updateGamerBatch`.  `sellPrice` is the accumulated
sale proceeds (the JS code reads `batch.sellPrice || "0"`, so a fresh batch
without the key behaves as 0, which we store directly);
`BlockNumberOnWhichBitsWereSold` is absent (`none`) until the first sale. -/
structure Batch where
  InitialBatchAmount : Int
  remainingBatchAmount : Int
  purchasePrice : Int
  BlockNumOnWhichBitsWereBought : Nat
  peakSupply : Int
  sellPrice : Int
  BlockNumberOnWhichBitsWereSold : Option Nat
deriving Repr, DecidableEq

/-- The on-disk state for one (holder, gamer) pair: the active batch files
in the gamer directory and the archived batch files in the archive
directory, keyed by batch number. -/
structure GamerStore where
  active : List (Nat × Batch)
  archive : List (Nat × Batch)
deriving Repr, DecidableEq

/-- Reading `batch_<n>.json` from the gamer directory
(`JSONStore.getBatchFile`). -/
def lookupBatch (s : GamerStore) (n : Nat) : Option Batch :=
  (s.active.find? (fun p => p.1 == n)).map Prod.snd

/-- Insert into an ascending list of batch numbers (helper for the
`sort` in `getBatchFilesInAscendingOrder`). -/
def insertAsc (n : Nat) : List Nat → List Nat
  | [] => [n]
  | m :: ms => if n ≤ m then n :: m :: ms else m :: insertAsc n ms

/-- Sort batch numbers ascending, as
`JSONStore.getBatchFilesInAscendingOrder` does after extracting the numbers
from the `batch_<n>.json` file names. -/
def sortAsc (l : List Nat) : List Nat := l.foldr insertAsc []

/-- `JSONStore.getBatchFilesInAscendingOrder` for one (holder, gamer) pair:
the active batch numbers, ascending. -/
def getBatchFilesInAscendingOrder (s : GamerStore) : List Nat :=
  sortAsc (s.active.map Prod.fst)

/-- `JSONStore.addGamerBatch`: determine the next batch number as
(max existing batch number) + 1 (or 1 when the directory has no batch
files), validate the new batch's purchase block against the last batch, and
write the new file.  Throws `INVALID_BLOCK_NUMBER` when
`batch.BlockNumOnWhichBitsWereBought < lastBatch.BlockNumOnWhichBitsWereBought`.
(The filesystem write/temp-file handling is invisible in the state model;
a failed read of the last batch file surfaces as `READ_BATCH_FAILED`.) -/
def addGamerBatch (s : GamerStore) (batch : Batch) : Except JSONStoreErr GamerStore :=
  let batchNumbers := (s.active.map Prod.fst).filter (fun n => decide (0 < n))
  if batchNumbers = [] then
    .ok { s with active := s.active ++ [(1, batch)] }
  else
    let lastBatchNumber := batchNumbers.foldl max 0
    match lookupBatch s lastBatchNumber with
    | none => .error .READ_BATCH_FAILED
    | some lastBatch =>
      if batch.BlockNumOnWhichBitsWereBought < lastBatch.BlockNumOnWhichBitsWereBought then
        .error .INVALID_BLOCK_NUMBER
      else
        .ok { s with active := s.active ++ [(lastBatchNumber + 1, batch)] }

/-- `JSONStore.updateGamerBatch`: checks (in source order) that the batch
file exists, that it holds enough bits, and that the sale block does not
precede the purchase block nor a previously recorded sale block (the JS
guard `batch.BlockNumberOnWhichBitsWereSold && ...` is falsy when the field
is absent or 0); then accumulates `sellPrice`, decrements
`remainingBatchAmount`, records the sale block, and archives the batch
(moves the file to the archive directory, overwriting) when the remaining
amount reaches zero. -/
def updateGamerBatch (s : GamerStore) (batchNumber : Nat) (bitsToDeduct : Int)
    (blockNumberOnWhichBitsWereSold : Nat) (sellPrice : Int) :
    Except JSONStoreErr GamerStore :=
  match lookupBatch s batchNumber with
  | none => .error .BATCH_NOT_FOUND
  | some batch =>
    if batch.remainingBatchAmount < bitsToDeduct then
      .error .INSUFFICIENT_BITS
    else if blockNumberOnWhichBitsWereSold < batch.BlockNumOnWhichBitsWereBought then
      .error .INVALID_BLOCK_NUMBER
    else if (match batch.BlockNumberOnWhichBitsWereSold with
             | some b => decide (b ≠ 0) && decide (blockNumberOnWhichBitsWereSold < b)
             | none => false) then
      .error .BLOCK_NUMBER_NOT_INCREMENTED
    else
      let batch' : Batch :=
        { batch with
          sellPrice := batch.sellPrice + sellPrice
          remainingBatchAmount := batch.remainingBatchAmount - bitsToDeduct
          BlockNumberOnWhichBitsWereSold := some blockNumberOnWhichBitsWereSold }
      if batch'.remainingBatchAmount = 0 then
        .ok { active := s.active.filter (fun p => p.1 != batchNumber)
              archive := s.archive.filter (fun p => p.1 != batchNumber) ++
                         [(batchNumber, batch')] }
      else
        .ok { s with active :=
                s.active.map (fun p => if p.1 == batchNumber then (p.1, batch') else p) }

/-! ## The full store: one `GamerStore` per (holder, gamer) directory -/

/-- The `data/holders` and `data/archive` trees: a `GamerStore` per
(holder address, gamer address) pair. -/
def Store := List ((String × String) × GamerStore)

/-- The state of the (holder, gamer) directory pair (empty when the
directories do not exist yet). -/
def getGamerStore (st : Store) (holder gamer : String) : GamerStore :=
  ((st.find? (fun p => p.1 == (holder, gamer))).map Prod.snd).getD ⟨[], []⟩

/-- Replace the state of a (holder, gamer) pair. -/
def setGamerStore (st : Store) (holder gamer : String) (gs : GamerStore) : Store :=
  st.filter (fun p => p.1 != (holder, gamer)) ++ [((holder, gamer), gs)]

/-- `updateMaxBlockNum` inside `JSONStore.getLatestBlockNum`: a batch
contributes its purchase block and, when set and non-zero (JS truthiness),
its sale block. -/
def updateMaxBlockNum (maxBlockNum : Nat) (batch : Batch) : Nat :=
  let m1 := if batch.BlockNumOnWhichBitsWereBought > maxBlockNum then
              batch.BlockNumOnWhichBitsWereBought else maxBlockNum
  match batch.BlockNumberOnWhichBitsWereSold with
  | some b => if b ≠ 0 ∧ b > m1 then b else m1
  | none => m1

/-- All batch files under `data/holders` and `data/archive`, as traversed by
`getLatestBlockNum`. -/
def allBatches (st : Store) : List Batch :=
  st.foldr (fun p acc => p.2.active.map Prod.snd ++ p.2.archive.map Prod.snd ++ acc) []

/-- `JSONStore.getLatestBlockNum`: the highest block number across every
batch file (active and archived), 0 for an empty store. -/
def getLatestBlockNum (st : Store) : Nat :=
  (allBatches st).foldl updateMaxBlockNum 0

/-! ## ChainIndexer.js -/

/-- The result of `ChainIndexer.extractTradeEventDetails`: the decoded
fields of one on-chain `Trade` event. -/
structure TradeEventDetails where
  trader : String
  gamer : String
  isBuy : Bool
  bitAmount : Int
  ethAmount : Int
  protocolEthAmount : Int
  gamerEthAmount : Int
  supply : Int
  blockNumber : Nat
  txHash : String
deriving Repr, DecidableEq

/-- The SELL loop of `ChainIndexer.storeEventDetails`: walk the batch
numbers in ascending order; a batch with enough remaining bits absorbs the
whole residual deduction and the loop breaks, otherwise the batch is fully
consumed and the loop continues.  Note that the source passes the same full
`sellPrice` (the event's `ethAmount`) to `updateGamerBatch` for *every*
batch touched.  Returns the updated store and the bits still to deduct
after the loop. -/
def consumeBatchesFIFO (s : GamerStore) (nums : List Nat) (bitsToDeduct : Int)
    (blockNumber : Nat) (sellPrice : Int) :
    Except JSONStoreErr (GamerStore × Int) :=
  match nums with
  | [] => .ok (s, bitsToDeduct)
  | n :: rest =>
    match lookupBatch s n with
    | none => .error .READ_BATCH_FAILED
    | some batch =>
      if batch.remainingBatchAmount ≥ bitsToDeduct then do
        let s' ← updateGamerBatch s n bitsToDeduct blockNumber sellPrice
        .ok (s', 0)
      else do
        let s' ← updateGamerBatch s n batch.remainingBatchAmount blockNumber sellPrice
        consumeBatchesFIFO s' rest (bitsToDeduct - batch.remainingBatchAmount)
          blockNumber sellPrice

/-- `ChainIndexer.storeEventDetails`, restricted to its ledger effect: skip
zero-bit events; a BUY appends a fresh batch whose purchase price is
`ethAmount + protocolEthAmount + gamerEthAmount`; a SELL consumes batches
oldest-first and raises `INSUFFICIENT_BITS` when bits remain to deduct
after all batches are exhausted.  (The pending-order mined-mark and the
live rule invocation at the end of the source function belong to the
`TxGofer` and task-queue models below.) -/
def storeEventDetails (st : Store) (e : TradeEventDetails) :
    Except JSONStoreErr Store :=
  if e.bitAmount = 0 then .ok st
  else
    let gs := getGamerStore st e.trader e.gamer
    if e.isBuy then
      let purchasePrice := e.ethAmount + e.protocolEthAmount + e.gamerEthAmount
      let newBatch : Batch :=
        { InitialBatchAmount := e.bitAmount
          remainingBatchAmount := e.bitAmount
          purchasePrice := purchasePrice
          BlockNumOnWhichBitsWereBought := e.blockNumber
          peakSupply := e.supply
          sellPrice := 0
          BlockNumberOnWhichBitsWereSold := none }
      do
        let gs' ← addGamerBatch gs newBatch
        .ok (setGamerStore st e.trader e.gamer gs')
    else
      let sellPrice := e.ethAmount
      do
        let (gs', leftover) ← consumeBatchesFIFO gs (getBatchFilesInAscendingOrder gs)
            e.bitAmount e.blockNumber sellPrice
        if leftover > 0 then .error .INSUFFICIENT_BITS
        else .ok (setGamerStore st e.trader e.gamer gs')

/-- The external `contract.queryFilter(Trade, fromBlock, toBlock)`: the
chain's trade events whose block number lies in the inclusive range. -/
def queryTradeEvents (chain : List TradeEventDetails) (fromBlock toBlock : Nat) :
    List TradeEventDetails :=
  chain.filter (fun e => decide (fromBlock ≤ e.blockNumber) &&
                         decide (e.blockNumber ≤ toBlock))

/-- The batching loop of `ChainIndexer.fetchEvents`
(`for (let i = startBlock; i <= endBlock; i += batchSize)`), returning the
events processed, in order.  (The JS loop does not terminate for
`batchSize = 0`; the configured `batchSize` is 1000.) -/
def fetchEvents (chain : List TradeEventDetails) (endBlock batchSize : Nat)
    (i : Nat) : List TradeEventDetails :=
  if _h : i ≤ endBlock ∧ 0 < batchSize then
    queryTradeEvents chain i (min (i + batchSize - 1) endBlock) ++
      fetchEvents chain endBlock batchSize (i + batchSize)
  else []
termination_by endBlock + 1 - i
decreasing_by omega

/-- The resume-block computation of `ChainIndexer.catchupIndex`:
`startBlock = config.startBlock`, overridden to `latestIndexedBlockNum + 1`
when `latestIndexedBlockNum > 0`. -/
def catchupStartBlock (latestIndexedBlockNum : Nat) (configStartBlock : Nat) : Nat :=
  if latestIndexedBlockNum > 0 then latestIndexedBlockNum + 1 else configStartBlock

/-! ## txGofer.js : the transaction slot coordinator

A pending order lives in `data/orders/<fleetAddress>/pendingOrder.json`;
the `0700` permission chmod applied by `markMinedOrder` is modelled as the
boolean `minedMark` on the file.  Timestamps are milliseconds since epoch
(`Date.now()` / `new Date(iso)` arithmetic), as `Int`.  The provider and
the `KeyFleet` balance checks are the external chain collaborator, modelled
as the fields of `TxEnv` (one instant in time).  `lowBalCacheTTLMinutes`
comes from `config/jobsConfig.js` (not part of this snapshot), so it is a
parameter here; no theorem depends on its value. -/

/-- The JSON contents of a `pendingOrder.json` file, as written by
`TxGofer.recordPendingOrder`. -/
structure PendingOrder where
  gamerAddress : String
  orderType : String
  numberOfBits : Int
  txHash : String
  nonce : Nat
  timestamp : Int
deriving Repr, DecidableEq

/-- A pending-order file on disk: its JSON contents plus the `0700`
mined-mark permission bits set by `markMinedOrder`. -/
structure PendingFile where
  order : PendingOrder
  minedMark : Bool
deriving Repr, DecidableEq

/-- The mutable state of a `TxGofer` instance together with the
`data/orders` tree: the fleet address list, the round-robin cursor
`lastChosenFleetAddrIndex`, the in-memory `lowBalanceCache`
(address ↦ cache timestamp), and the per-fleet-address pending-order
files. -/
structure TxGoferState where
  fleetAddresses : List String
  lastChosenFleetAddrIndex : Nat
  lowBalanceCache : List (String × Int)
  pendingFiles : List (String × PendingFile)
deriving Repr, DecidableEq

/-- The external collaborators at one instant: the provider's
`getTransactionCount(addr, 'latest')`, the `KeyFleet` balance checks, and
the current wall-clock time in milliseconds. -/
structure TxEnv where
  nonceOf : String → Nat
  hasEnoughERC20 : String → Bool
  hasEnoughGas : String → Bool
  now : Int

/-- Look up the pending-order file of a fleet address. -/
def lookupPendingFile (files : List (String × PendingFile)) (addr : String) :
    Option PendingFile :=
  (files.find? (fun p => p.1 == addr)).map Prod.snd

/-- `fs.remove` of a fleet address's pending-order file. -/
def removePendingFile (files : List (String × PendingFile)) (addr : String) :
    List (String × PendingFile) :=
  files.filter (fun p => p.1 != addr)

/-- `fs.writeJson` of a fleet address's pending-order file (overwrite). -/
def writePendingFile (files : List (String × PendingFile)) (addr : String)
    (pf : PendingFile) : List (String × PendingFile) :=
  removePendingFile files addr ++ [(addr, pf)]

/-- `TxGofer.recordPendingOrder` (happy path of the CONSUMER role): reads
the holder's current nonce, stamps the current time, and writes the
pending-order file, making the slot busy before the transaction is
confirmed. -/
def recordPendingOrder (env : TxEnv) (s : TxGoferState) (gamerAddress orderType : String)
    (numberOfBits : Int) (fleetAddress txHash : String) : TxGoferState :=
  let pendingOrder : PendingOrder :=
    { gamerAddress := gamerAddress
      orderType := orderType
      numberOfBits := numberOfBits
      txHash := txHash
      nonce := env.nonceOf fleetAddress
      timestamp := env.now }
  { s with pendingFiles :=
      writePendingFile s.pendingFiles fleetAddress ⟨pendingOrder, false⟩ }

/-- `TxGofer.markMinedOrder` (happy path of the PRODUCER role): when a
pending-order file exists for the fleet address and its `txHash` matches,
chmod it to `0700` (set the mined mark); otherwise do nothing. -/
def markMinedOrder (s : TxGoferState) (fleetAddress txHash : String) : TxGoferState :=
  match lookupPendingFile s.pendingFiles fleetAddress with
  | none => s
  | some pf =>
    if pf.order.txHash == txHash then
      { s with pendingFiles :=
          writePendingFile s.pendingFiles fleetAddress { pf with minedMark := true } }
    else s

/-- `TxGofer.refreshPendingOrder`: no file → null; mined-marked file →
remove, null; file older than `maxPendingInSeconds` → remove, null;
on-chain nonce advanced past the recorded nonce → remove, null; otherwise
the pending order is returned unchanged and the file kept. -/
def refreshPendingOrder (env : TxEnv) (s : TxGoferState) (fleetAddress : String) :
    TxGoferState × Option PendingOrder :=
  match lookupPendingFile s.pendingFiles fleetAddress with
  | none => (s, none)
  | some pf =>
    if pf.minedMark then
      ({ s with pendingFiles := removePendingFile s.pendingFiles fleetAddress }, none)
    else if env.now - pf.order.timestamp > (baseConfig.maxPendingInSeconds : Int) * 1000 then
      ({ s with pendingFiles := removePendingFile s.pendingFiles fleetAddress }, none)
    else if env.nonceOf fleetAddress > pf.order.nonce then
      ({ s with pendingFiles := removePendingFile s.pendingFiles fleetAddress }, none)
    else
      (s, some pf.order)

/-- `TxGofer.isInLowBalCache`: the address has a cache entry younger than
`lowBalCacheTTLMinutes`. -/
def isInLowBalCache (ttlMinutes : Int) (cache : List (String × Int))
    (address : String) (now : Int) : Bool :=
  match (cache.find? (fun p => p.1 == address)).map Prod.snd with
  | none => false
  | some t => decide (now - t < ttlMinutes * 60 * 1000)

/-- `TxGofer.cacheLowBalAddress`. -/
def cacheLowBalAddress (cache : List (String × Int)) (address : String) (now : Int) :
    List (String × Int) :=
  cache.filter (fun p => p.1 != address) ++ [(address, now)]

/-- `this.lastChosenFleetAddrIndex = index` inside `selectNextFreeKeySlot`. -/
def withCursor (s : TxGoferState) (i : Nat) : TxGoferState :=
  { s with lastChosenFleetAddrIndex := i }

/-- Replacing the low-balance cache (the effect of `cacheLowBalAddress`
on the gofer's state). -/
def withCache (s : TxGoferState) (c : List (String × Int)) : TxGoferState :=
  { s with lowBalanceCache := c }

/-- One scanning pass of `TxGofer.selectNextFreeKeySlot`
(`for (let i = 0; ...) { index = (index + 1) % len; ... }`).  In the first
pass (`refreshPass = false`) a slot is skipped whenever its pending-order
file exists; in the second pass (`refreshPass = true`) the slot's pending
order is first reconciled through `refreshPendingOrder`.  A free-looking
slot is skipped while in the low-balance cache, returned when both balance
checks pass (updating the round-robin cursor), and cached as low-balance
otherwise.  `fuel` counts the remaining loop iterations, starting at the
fleet size. -/
def selectSlotPass (refreshPass : Bool) (env : TxEnv) (ttlMinutes : Int) :
    Nat → Nat → TxGoferState → TxGoferState × Option Nat
  | 0, _, s => (s, none)
  | fuel + 1, index, s =>
    let index1 := (index + 1) % s.fleetAddresses.length
    let currentAddress := s.fleetAddresses.getD index1 ""
    let s1 := if refreshPass then (refreshPendingOrder env s currentAddress).1 else s
    let free : Bool :=
      if refreshPass then (refreshPendingOrder env s currentAddress).2.isNone
      else (lookupPendingFile s.pendingFiles currentAddress).isNone
    if free then
      if isInLowBalCache ttlMinutes s1.lowBalanceCache currentAddress env.now then
        selectSlotPass refreshPass env ttlMinutes fuel index1 s1
      else if env.hasEnoughERC20 currentAddress && env.hasEnoughGas currentAddress then
        ({ s1 with lastChosenFleetAddrIndex := index1 }, some index1)
      else
        selectSlotPass refreshPass env ttlMinutes fuel index1
          { s1 with lowBalanceCache :=
              cacheLowBalAddress s1.lowBalanceCache currentAddress env.now }
    else
      selectSlotPass refreshPass env ttlMinutes fuel index1 s1

/-- `TxGofer.selectNextFreeKeySlot`: scan the fleet once starting just
after the round-robin cursor; when no slot is found, rescan from the same
start index, this time reconciling each pending order via
`refreshPendingOrder`.  `none` models the `-1` sentinel. -/
def selectNextFreeKeySlot (env : TxEnv) (ttlMinutes : Int) (s : TxGoferState) :
    TxGoferState × Option Nat :=
  let startIndex := s.lastChosenFleetAddrIndex
  match selectSlotPass false env ttlMinutes s.fleetAddresses.length startIndex s with
  | (s1, some idx) => (s1, some idx)
  | (s1, none) =>
    selectSlotPass true env ttlMinutes s1.fleetAddresses.length startIndex s1

/-! ## taskQueue.js and rulesEngineLib.js : the serialized rule invoker

`TaskQueue` keeps `this.queue` and `this.processing`; `add` pushes a task
and kicks off `processNext` when the queue is idle; `processNext` pops the
head task, awaits it, resolves its promise on success, logs (and does
*not* reject — `reject(error)` is commented out) on failure, and in the
`finally` block calls itself again.  JavaScript is single-threaded, so the
only interleaving points are the awaits: between the pop of one task and
its completion, further `add` calls may run.  The embedding is a
transition system whose two events are an `add` call and the completion of
the currently awaited task; the synchronous tail of each event (everything
up to the next await) is one atomic transition. -/

instance : DecidableEq (Except String Unit) := fun
  | .ok (), .ok () => isTrue rfl
  | .ok (), .error _ => isFalse nofun
  | .error _, .ok () => isFalse nofun
  | .error a, .error b =>
    if h : a = b then isTrue (by rw [h])
    else isFalse (fun he => h (by cases he; rfl))

/-- A task handed to `TaskQueue.add`: an identifier and the outcome its
execution would produce (`.error` models the task function throwing). -/
structure QueueTask where
  id : Nat
  run : Except String Unit
deriving Repr, DecidableEq

/-- How the promise returned by `TaskQueue.add` for a task was settled. -/
inductive Settlement where
  | resolved
  | rejected
deriving Repr, DecidableEq

/-- A finished task: what it was and how (whether) its promise settled. -/
structure CompletionRec where
  task : QueueTask
  settlement : Option Settlement
deriving Repr, DecidableEq

/-- The state of the shared `TaskQueue` (and its observable history):
`pending` is `this.queue`, `running` the tasks popped but not yet
completed, `processing` the `this.processing` flag, `done` the completed
tasks in completion order, `errorLog` the `logger.logError` lines from the
`catch` branch. -/
structure TaskQueueState where
  pending : List QueueTask
  running : List QueueTask
  processing : Bool
  done : List CompletionRec
  errorLog : List String
deriving Repr, DecidableEq

/-- The queue as constructed (`this.queue = []; this.processing = false`). -/
def initQueueState : TaskQueueState :=
  { pending := [], running := [], processing := false, done := [], errorLog := [] }

/-- The synchronous head of `processNext`: an empty queue clears the
`processing` flag; otherwise the flag is set and the head task is shifted
off the queue and its execution begins. -/
def processNextStep (s : TaskQueueState) : TaskQueueState :=
  match s.pending with
  | [] => { s with processing := false }
  | t :: rest =>
    { s with processing := true, pending := rest, running := s.running ++ [t] }

/-- The two events of the queue transition system. -/
inductive QueueEvent where
  | add (t : QueueTask)
  | taskReturns
deriving Repr, DecidableEq

/-- One transition: `add` pushes the task and enters `processNext` when
the queue was idle; `taskReturns` is the completion of the task being
awaited — on success its promise is resolved, on error the message is
logged and the promise is left unsettled (the source's `reject(error)` is
commented out) — followed by the `finally { this.processNext() }`. -/
def queueStep (s : TaskQueueState) : QueueEvent → Option TaskQueueState
  | .add t =>
    let s' := { s with pending := s.pending ++ [t] }
    some (if s.processing then s' else processNextStep s')
  | .taskReturns =>
    match s.running with
    | [] => none
    | t :: rest =>
      let record : CompletionRec :=
        { task := t
          settlement := match t.run with
            | .ok _ => some .resolved
            | .error _ => none }
      let errs : List String := match t.run with
        | .ok _ => []
        | .error m => [m]
      some (processNextStep
        { s with running := rest
                 done := s.done ++ [record]
                 errorLog := s.errorLog ++ errs })

/-- Run a sequence of queue events. -/
def runQueue (s : TaskQueueState) : List QueueEvent → Option TaskQueueState
  | [] => some s
  | ev :: evs =>
    match queueStep s ev with
    | none => none
    | some s' => runQueue s' evs

/-- The tasks added by a trace, in arrival order. -/
def queueArrivals : List QueueEvent → List QueueTask
  | [] => []
  | .add t :: evs => t :: queueArrivals evs
  | .taskReturns :: evs => queueArrivals evs

/-- `evaluateAndInvokeRules` in rulesEngineLib.js: one call, from any
trigger source, is exactly one `sharedTaskQueue.add` of the rule-batch
evaluation task. -/
def evaluateAndInvokeRules (task : QueueTask) (sharedTaskQueue : TaskQueueState) :
    Option TaskQueueState :=
  queueStep sharedTaskQueue (.add task)

/-- `module.exports.evaluateAndInvokeBuy` — bound to
`evaluateAndInvokeRules` on the single shared queue. -/
def evaluateAndInvokeBuy : QueueTask → TaskQueueState → Option TaskQueueState :=
  evaluateAndInvokeRules

/-- `module.exports.evaluateAndInvokeSell` — bound to the same
`evaluateAndInvokeRules` on the same shared queue. -/
def evaluateAndInvokeSell : QueueTask → TaskQueueState → Option TaskQueueState :=
  evaluateAndInvokeRules

/-! ## sellGofer.js : live-balance re-validation of a SELL proposal -/

/-- The balance re-validation step of `SellGofer.processSellAlerts`
(after gas checks, before execution): a zero live `bitsBalance` drops the
proposal (`none`); a balance below the proposed quantity clamps
`orderData.quantity` down to the balance; otherwise the proposed quantity
is executed unchanged. -/
def revalidateSellQuantity (bitsBalance : Int) (orderQuantity : Int) : Option Int :=
  if bitsBalance = 0 then none
  else if bitsBalance < orderQuantity then some bitsBalance
  else some orderQuantity

/-! ## Well-formedness of the lot store (for C2 and C3)

`addLot` in the specification is `addGamerBatch`, `consumeLot` is
`updateGamerBatch`; a caller of the store catches a thrown
`JSONStoreTxHistoryError`, leaving the on-disk state unmodified (the
temporary-file write discipline), which `runStoreOps` models by keeping
the previous state on `.error`. -/

/-- The lot invariant of the data model: `0 ≤ remaining ≤ initial`. -/
def BatchWF (b : Batch) : Prop :=
  0 ≤ b.remainingBatchAmount ∧ b.remainingBatchAmount ≤ b.InitialBatchAmount

instance (b : Batch) : Decidable (BatchWF b) := by
  unfold BatchWF
  infer_instance

/-- Every lot of the (holder, gamer) pair — active or archived —
satisfies the lot invariant. -/
def GamerStoreWF (s : GamerStore) : Prop :=
  (∀ p ∈ s.active, BatchWF p.2) ∧ (∀ p ∈ s.archive, BatchWF p.2)

instance (s : GamerStore) : Decidable (GamerStoreWF s) := by
  unfold GamerStoreWF
  infer_instance

/-- One store operation: `addLot` (= `addGamerBatch`) or `consumeLot`
(= `updateGamerBatch`). -/
inductive StoreOp where
  | addLot (batch : Batch)
  | consumeLot (batchNumber : Nat) (quantity : Int) (saleBlock : Nat)
      (saleProceeds : Int)
deriving Repr, DecidableEq

/-- Apply one operation to the (holder, gamer) store. -/
def applyStoreOp (s : GamerStore) : StoreOp → Except JSONStoreErr GamerStore
  | .addLot b => addGamerBatch s b
  | .consumeLot n q blk pr => updateGamerBatch s n q blk pr

/-- Run a sequence of operations; a thrown error leaves the stored state
unchanged and the sequence continues. -/
def runStoreOps (s : GamerStore) : List StoreOp → GamerStore
  | [] => s
  | op :: ops =>
    runStoreOps (match applyStoreOp s op with | .ok s' => s' | .error _ => s) ops

/-- The inputs the indexer feeds the store: added lots satisfy the lot
invariant (the indexer creates them with `remaining = initial = bitAmount`
from an unsigned on-chain amount), and consumed quantities are
non-negative. -/
def StoreOpWF : StoreOp → Prop
  | .addLot b => BatchWF b
  | .consumeLot _ q _ _ => 0 ≤ q

instance (op : StoreOp) : Decidable (StoreOpWF op) := by
  cases op <;> (unfold StoreOpWF; infer_instance)

/-! ## C1 : the concrete FIFO sell scenario

Holder H buys 12 bits at block 100 (total cost 1200) and 15 bits at block
105 (total cost 1800); a sell of 20 bits at block 110 with proceeds 2000
is then indexed.  -/

/-- First purchase: 12 bits at block 100, total cost 1000+100+100 = 1200. -/
def c1Buy1 : TradeEventDetails :=
  { trader := "H", gamer := "G", isBuy := true, bitAmount := 12,
    ethAmount := 1000, protocolEthAmount := 100, gamerEthAmount := 100,
    supply := 50, blockNumber := 100, txHash := "0xa" }

/-- Second purchase: 15 bits at block 105, total cost 1600+100+100 = 1800. -/
def c1Buy2 : TradeEventDetails :=
  { trader := "H", gamer := "G", isBuy := true, bitAmount := 15,
    ethAmount := 1600, protocolEthAmount := 100, gamerEthAmount := 100,
    supply := 60, blockNumber := 105, txHash := "0xb" }

/-- The sell: 20 bits at block 110, proceeds (`ethAmount`) 2000. -/
def c1Sell : TradeEventDetails :=
  { trader := "H", gamer := "G", isBuy := false, bitAmount := 20,
    ethAmount := 2000, protocolEthAmount := 0, gamerEthAmount := 0,
    supply := 40, blockNumber := 110, txHash := "0xc" }

/-- Indexing the three events in order, starting from an empty store. -/
def c1Run : Except JSONStoreErr Store :=
  storeEventDetails [] c1Buy1 >>= fun st =>
  storeEventDetails st c1Buy2 >>= fun st =>
  storeEventDetails st c1Sell

/-- Batch 1 after the sell: emptied, archived, and credited with the FULL
2000 proceeds (not the proportional 1200). -/
def c1Batch1Final : Batch :=
  { InitialBatchAmount := 12, remainingBatchAmount := 0, purchasePrice := 1200,
    BlockNumOnWhichBitsWereBought := 100, peakSupply := 50,
    sellPrice := 2000, BlockNumberOnWhichBitsWereSold := some 110 }

/-- Batch 2 after the sell: 7 bits remaining, also credited with the FULL
2000 proceeds (not the proportional 800). -/
def c1Batch2Final : Batch :=
  { InitialBatchAmount := 15, remainingBatchAmount := 7, purchasePrice := 1800,
    BlockNumOnWhichBitsWereBought := 105, peakSupply := 60,
    sellPrice := 2000, BlockNumberOnWhichBitsWereSold := some 110 }



/-! ## C5 : round-robin slot selection over the fleet [A, B, C] -/

/-- The chain environment for the C5 scenario: all three holders
sufficiently funded, nonces and clock irrelevant (no pending orders are
live long enough to expire). -/
def c5Env : TxEnv :=
  { nonceOf := fun _ => 0
    hasEnoughERC20 := fun _ => true
    hasEnoughGas := fun _ => true
    now := 0 }

/-- Fleet [A, B, C], cursor at A (index 0), everything free. -/
def c5State : TxGoferState :=
  { fleetAddresses := ["A", "B", "C"]
    lastChosenFleetAddrIndex := 0
    lowBalanceCache := []
    pendingFiles := [] }

/-- The C5 low-balance-cache TTL (any value works, nothing is cached). -/
def c5Ttl : Int := 10

/-- First call from `c5State`. -/
def c5Call1 : TxGoferState × Option Nat := selectNextFreeKeySlot c5Env c5Ttl c5State

/-- Recording a pending order for B (index 1) after the first call. -/
def c5StateAfterOrderB : TxGoferState :=
  recordPendingOrder c5Env c5Call1.1 "G" "SELL" 3 "B" "0xh"

/-- Second call in the cycling scenario (no pending orders recorded). -/
def c5Call2 : TxGoferState × Option Nat := selectNextFreeKeySlot c5Env c5Ttl c5Call1.1

/-- Third call in the cycling scenario. -/
def c5Call3 : TxGoferState × Option Nat := selectNextFreeKeySlot c5Env c5Ttl c5Call2.1



/-! ## C9 : live-balance re-validation of a SELL proposal -/



/-! ## C6 : characterization of refreshPendingOrder -/



/-- C6 witness: a mined-marked pending order is removed and null is
returned. -/
def c6Pf : PendingFile :=
  { order := { gamerAddress := "G", orderType := "SELL", numberOfBits := 3,
               txHash := "0xh", nonce := 4, timestamp := 0 }
    minedMark := true }

/-- The state holding the mined-marked pending order of holder A. -/
def c6State : TxGoferState :=
  { fleetAddresses := ["A"], lastChosenFleetAddrIndex := 0,
    lowBalanceCache := [], pendingFiles := [("A", c6Pf)] }

/-- The environment for the C6 witness. -/
def c6Env : TxEnv :=
  { nonceOf := fun _ => 0, hasEnoughERC20 := fun _ => true,
    hasEnoughGas := fun _ => true, now := 0 }



/-! ## C7 : resume block on indexer start -/


/-- The ledger state refuting the max-formula reading of the claim: one lot
whose purchase block is 1 (below the deployment block 15992772). -/
def c7CounterStore : Store :=
  [(("H", "G"),
    { active := [(1,
        { InitialBatchAmount := 1, remainingBatchAmount := 1, purchasePrice := 1,
          BlockNumOnWhichBitsWereBought := 1, peakSupply := 0, sellPrice := 0,
          BlockNumberOnWhichBitsWereSold := none })]
      archive := [] })]



/-- C7 witness: a ledger whose latest block is 16000000 resumes from
16000001. -/
def c7WitnessStore : Store :=
  [(("H", "G"),
    { active := [(1,
        { InitialBatchAmount := 5, remainingBatchAmount := 5, purchasePrice := 9,
          BlockNumOnWhichBitsWereBought := 16000000, peakSupply := 0, sellPrice := 0,
          BlockNumberOnWhichBitsWereSold := none })]
      archive := [] })]


/-- The live pending order of holder B for the C4 witness. -/
def c4Pf : PendingFile :=
  { order := { gamerAddress := "G", orderType := "SELL", numberOfBits := 3,
               txHash := "0xh", nonce := 5, timestamp := 0 }
    minedMark := false }

/-- Fleet [A, B] with a live pending order for B. -/
def c4State : TxGoferState :=
  { fleetAddresses := ["A", "B"], lastChosenFleetAddrIndex := 0,
    lowBalanceCache := [], pendingFiles := [("B", c4Pf)] }

/-- The chain environment for the C4 witness: funded holders, nonce 0
everywhere (not advanced past 5), clock at 0 (order not expired). -/
def c4Env : TxEnv :=
  { nonceOf := fun _ => 0, hasEnoughERC20 := fun _ => true,
    hasEnoughGas := fun _ => true, now := 0 }

/-- The task-queue invariant maintained by every reachable state: at most
one task executing, the `processing` flag set while one is, an idle queue
empty, and the completed + executing + queued tasks laid out exactly in
arrival order (FIFO). -/
def QueueInv (arr : List QueueTask) (s : TaskQueueState) : Prop :=
  s.running.length ≤ 1
  ∧ (s.running ≠ [] → s.processing = true)
  ∧ (s.processing = false → s.pending = [] ∧ s.running = [])
  ∧ s.done.map CompletionRec.task ++ s.running ++ s.pending = arr

/-- The throwing task of the C8 witness trace. -/
def c8ErrTask : QueueTask := { id := 1, run := .error "boom" }

/-- The succeeding task of the C8 witness trace. -/
def c8OkTask : QueueTask := { id := 2, run := .ok () }

/-- The C8 witness trace: two adds (the first throws), both completions. -/
def c8Trace : List QueueEvent :=
  [.add c8ErrTask, .add c8OkTask, .taskReturns, .taskReturns]

/-- The state the C8 witness trace ends in. -/
def c8Final : TaskQueueState :=
  { pending := [], running := [], processing := false,
    done := [{ task := c8ErrTask, settlement := none },
             { task := c8OkTask, settlement := some .resolved }],
    errorLog := ["boom"] }

/-- The throwing task of the C10 witness trace. -/
def c10ErrTask : QueueTask := { id := 7, run := .error "kaput" }

/-- The succeeding task of the C10 witness trace. -/
def c10OkTask : QueueTask := { id := 8, run := .ok () }

/-- The C10 witness trace. -/
def c10Trace : List QueueEvent :=
  [.add c10ErrTask, .add c10OkTask, .taskReturns, .taskReturns]

/-- The state the C10 witness trace ends in: the throwing task's promise
was never settled, the succeeding task's promise was resolved. -/
def c10Final : TaskQueueState :=
  { pending := [], running := [], processing := false,
    done := [{ task := c10ErrTask, settlement := none },
             { task := c10OkTask, settlement := some .resolved }],
    errorLog := ["kaput"] }

/-- The lot used by the C2 witness: 3 of initially 5 bits remaining. -/
def c2Batch : Batch :=
  { InitialBatchAmount := 5, remainingBatchAmount := 3, purchasePrice := 9,
    BlockNumOnWhichBitsWereBought := 100, peakSupply := 0, sellPrice := 0,
    BlockNumberOnWhichBitsWereSold := none }

/-- The existing lot for the C3 witness: bought at block 100. -/
def c3LastBatch : Batch :=
  { InitialBatchAmount := 4, remainingBatchAmount := 4, purchasePrice := 9,
    BlockNumOnWhichBitsWereBought := 100, peakSupply := 0, sellPrice := 0,
    BlockNumberOnWhichBitsWereSold := none }

/-- The store holding only `c3LastBatch` as batch 1. -/
def c3Store : GamerStore := { active := [(1, c3LastBatch)], archive := [] }

/-- The offending new lot for the C3 witness: bought at block 90 < 100. -/
def c3NewBatch : Batch :=
  { InitialBatchAmount := 2, remainingBatchAmount := 2, purchasePrice := 5,
    BlockNumOnWhichBitsWereBought := 90, peakSupply := 0, sellPrice := 0,
    BlockNumberOnWhichBitsWereSold := none }


/-! ## Claim theorems -/

/-- A successful `lookupBatch` returns an entry of the active list. -/
theorem lookupBatch_mem {s : GamerStore} {n : Nat} {b : Batch}
    (h : lookupBatch s n = some b) : (n, b) ∈ s.active := by
  unfold lookupBatch at h
  cases hf : s.active.find? (fun p => p.1 == n) with
  | none => rw [hf] at h; cases h
  | some p =>
    rw [hf] at h
    have hb : p.2 = b := by simpa using h
    have hmem := List.mem_of_find?_eq_some hf
    have hpred := List.find?_some hf
    have hn : p.1 = n := by simpa using hpred
    have hp : p = (n, b) := by
      cases p
      simp_all
    rw [← hp]
    exact hmem

/-- `addGamerBatch` preserves the lot invariant when the added lot
satisfies it. -/
theorem addGamerBatch_wf {s : GamerStore} {b : Batch} {s' : GamerStore}
    (hs : GamerStoreWF s) (hb : BatchWF b)
    (h : addGamerBatch s b = .ok s') : GamerStoreWF s' := by
  unfold addGamerBatch at h
  dsimp only at h
  have hA : ∀ k : Nat, s' = { s with active := s.active ++ [(k, b)] } → GamerStoreWF s' := by
    intro k hk
    subst hk
    refine ⟨?_, hs.2⟩
    intro p hp
    rcases List.mem_append.mp hp with hold | hnew
    · exact hs.1 p hold
    · rcases List.mem_singleton.mp hnew with rfl
      exact hb
  split at h
  · cases h
    exact hA 1 rfl
  · split at h
    · cases h
    · split at h
      · cases h
      · cases h
        exact hA _ rfl

/-- `updateGamerBatch` preserves the lot invariant when the consumed
quantity is non-negative. -/
theorem updateGamerBatch_wf {s : GamerStore} {n : Nat} {q : Int} {blk : Nat}
    {pr : Int} {s' : GamerStore}
    (hs : GamerStoreWF s) (hq : 0 ≤ q)
    (h : updateGamerBatch s n q blk pr = .ok s') : GamerStoreWF s' := by
  unfold updateGamerBatch at h
  cases hl : lookupBatch s n with
  | none => rw [hl] at h; cases h
  | some batch =>
    rw [hl] at h
    dsimp only at h
    have hbwf : BatchWF batch := hs.1 _ (lookupBatch_mem hl)
    by_cases h1 : batch.remainingBatchAmount < q
    · rw [if_pos h1] at h; cases h
    · rw [if_neg h1] at h
      by_cases h2 : blk < batch.BlockNumOnWhichBitsWereBought
      · rw [if_pos h2] at h; cases h
      · rw [if_neg h2] at h
        have hwf' : BatchWF
            { batch with
              sellPrice := batch.sellPrice + pr
              remainingBatchAmount := batch.remainingBatchAmount - q
              BlockNumberOnWhichBitsWereSold := some blk } := by
          unfold BatchWF at hbwf ⊢
          simp only
          omega
        split at h
        · cases h
        · split at h
          · cases h
            refine ⟨?_, ?_⟩
            · intro p hp
              exact hs.1 p (List.mem_of_mem_filter hp)
            · intro p hp
              rcases List.mem_append.mp hp with hold | hnew
              · exact hs.2 p (List.mem_of_mem_filter hold)
              · rcases List.mem_singleton.mp hnew with rfl
                exact hwf'
          · cases h
            refine ⟨?_, hs.2⟩
            intro p hp
            rcases List.mem_map.mp hp with ⟨p0, hp0, hpeq⟩
            by_cases hpn : p0.1 == n
            · rw [if_pos hpn] at hpeq
              rw [← hpeq]
              exact hwf'
            · rw [if_neg hpn] at hpeq
              rw [← hpeq]
              exact hs.1 p0 hp0

/-- Running a sequence of well-formed operations preserves the lot
invariant (a thrown error leaves the state as it was). -/
theorem runStoreOps_wf : ∀ (ops : List StoreOp) (s : GamerStore),
    GamerStoreWF s → (∀ op ∈ ops, StoreOpWF op) →
    GamerStoreWF (runStoreOps s ops) := by
  intro ops
  induction ops with
  | nil => intro s hs _; exact hs
  | cons op ops ih =>
    intro s hs hops
    rw [runStoreOps]
    cases happ : applyStoreOp s op with
    | ok s1 =>
      refine ih s1 ?_ (fun op' h' => hops op' (List.mem_cons_of_mem _ h'))
      have hop : StoreOpWF op := hops op (List.mem_cons_self op ops)
      cases op with
      | addLot b => exact addGamerBatch_wf hs hop happ
      | consumeLot n q blk pr => exact updateGamerBatch_wf hs hop happ
    | error e =>
      exact ih s hs (fun op' h' => hops op' (List.mem_cons_of_mem _ h'))

/-- C2: consuming more than a lot's remaining amount raises
`INSUFFICIENT_BITS` (the stored state is unchanged — the operation
produces no new store), and after any sequence of addLot/consumeLot
operations with well-formed inputs every lot satisfies
`0 ≤ remaining ≤ initial`. -/
theorem c2_no_oversell_and_lot_invariant :
    (∀ (s : GamerStore) (n : Nat) (batch : Batch) (q : Int) (blk : Nat) (pr : Int),
      lookupBatch s n = some batch →
      batch.remainingBatchAmount < q →
      updateGamerBatch s n q blk pr = .error .INSUFFICIENT_BITS)
    ∧ (∀ (ops : List StoreOp) (s : GamerStore),
      GamerStoreWF s → (∀ op ∈ ops, StoreOpWF op) →
      GamerStoreWF (runStoreOps s ops)) := by
  constructor
  · intro s n batch q blk pr hl hlt
    unfold updateGamerBatch
    rw [hl]
    simp only [if_pos hlt]
  · exact runStoreOps_wf

/-- C2 witness: deducting 4 from a lot holding 3 raises
`INSUFFICIENT_BITS`, and a concrete addLot/consumeLot run keeps every lot
invariant. -/
theorem c2_witness :
    updateGamerBatch { active := [(1, c2Batch)], archive := [] } 1 4 110 7 =
      .error .INSUFFICIENT_BITS
    ∧ GamerStoreWF (runStoreOps { active := [], archive := [] }
        [.addLot c2Batch, .consumeLot 1 2 110 7]) :=
  ⟨c2_no_oversell_and_lot_invariant.1 _ 1 c2Batch 4 110 7 (by decide) (by decide),
   c2_no_oversell_and_lot_invariant.2 _ _ (by decide) (by decide)⟩

/-- Folding `max` over a list bounded by `m`, from a start bounded by `m`,
stays bounded by `m`. -/
theorem foldl_max_le {l : List Nat} {m : Nat} :
    ∀ {a : Nat}, a ≤ m → (∀ x ∈ l, x ≤ m) → l.foldl max a ≤ m := by
  induction l with
  | nil => intro a ha _; exact ha
  | cons x xs ih =>
    intro a ha h
    exact ih (max_le ha (h x (List.mem_cons_self x xs)))
      (fun y hy => h y (List.mem_cons_of_mem _ hy))

/-- `find?` on a list ending in the only entry with key `m` returns that
entry. -/
theorem find?_append_last {l : List (Nat × Batch)} {m : Nat} {lb : Batch}
    (h : ∀ p ∈ l, p.1 ≠ m) :
    (l ++ [(m, lb)]).find? (fun p => p.1 == m) = some (m, lb) := by
  induction l with
  | nil => simp
  | cons p ps ih =>
    rw [List.cons_append,
        List.find?_cons_of_neg _ (by simp [h p (List.mem_cons_self p ps)]),
        ih (fun q hq => h q (List.mem_cons_of_mem _ hq))]

/-- C3: for a (holder, gamer) pair whose active lot sequence ends in the
lot with the highest batch number (`lastBatch`), `addGamerBatch` raises
`INVALID_BLOCK_NUMBER` if and only if the new lot's purchase block is
strictly below `lastBatch`'s purchase block (equal blocks are accepted);
on success the new lot is appended with the next batch number and the
per-pair purchase-block sequence stays non-decreasing (and the batch
numbers strictly increasing). -/
theorem c3_add_lot_block_order (s : GamerStore) (l : List (Nat × Batch))
    (m : Nat) (lastBatch : Batch) (b : Batch)
    (hact : s.active = l ++ [(m, lastBatch)])
    (hsorted : List.Pairwise (· < ·) (s.active.map Prod.fst))
    (hpos : ∀ p ∈ s.active, 0 < p.1)
    (hblocks : List.Pairwise (· ≤ ·)
      (s.active.map (fun p => p.2.BlockNumOnWhichBitsWereBought))) :
    (addGamerBatch s b = .error .INVALID_BLOCK_NUMBER ↔
      b.BlockNumOnWhichBitsWereBought < lastBatch.BlockNumOnWhichBitsWereBought)
    ∧ (∀ s', addGamerBatch s b = .ok s' →
        s'.active = s.active ++ [(m + 1, b)]
        ∧ List.Pairwise (· < ·) (s'.active.map Prod.fst)
        ∧ List.Pairwise (· ≤ ·)
            (s'.active.map (fun p => p.2.BlockNumOnWhichBitsWereBought))) := by
  have hnums : s.active.map Prod.fst = l.map Prod.fst ++ [m] := by
    rw [hact]; simp
  have hposn : ∀ x ∈ s.active.map Prod.fst, 0 < x := by
    intro x hx
    rcases List.mem_map.mp hx with ⟨p, hp, rfl⟩
    exact hpos p hp
  have hfilter : (s.active.map Prod.fst).filter (fun n => decide (0 < n)) =
      s.active.map Prod.fst :=
    List.filter_eq_self.mpr (fun a ha => decide_eq_true (hposn a ha))
  have hltm : ∀ x ∈ l.map Prod.fst, x < m := by
    have hs' := hsorted
    rw [hnums] at hs'
    have h3 := (List.pairwise_append.mp hs').2.2
    intro x hx
    exact h3 x hx m (by simp)
  have hmax : (s.active.map Prod.fst).foldl max 0 = m := by
    rw [hnums, List.foldl_append]
    have hle : (l.map Prod.fst).foldl max 0 ≤ m :=
      foldl_max_le (Nat.zero_le m) (fun x hx => le_of_lt (hltm x hx))
    simpa using max_eq_right hle
  have hlook : lookupBatch s m = some lastBatch := by
    unfold lookupBatch
    rw [hact, find?_append_last (fun p hp => Nat.ne_of_lt (hltm p.1
      (List.mem_map.mpr ⟨p, hp, rfl⟩)))]
    rfl
  have hne : ¬ (s.active.map Prod.fst = []) := by
    rw [hnums]; simp
  have hbody : addGamerBatch s b =
      if b.BlockNumOnWhichBitsWereBought < lastBatch.BlockNumOnWhichBitsWereBought
      then .error .INVALID_BLOCK_NUMBER
      else .ok { s with active := s.active ++ [(m + 1, b)] } := by
    unfold addGamerBatch
    dsimp only
    rw [hfilter, hmax, hlook, if_neg hne]
  constructor
  · constructor
    · intro herr
      by_cases hlt : b.BlockNumOnWhichBitsWereBought <
          lastBatch.BlockNumOnWhichBitsWereBought
      · exact hlt
      · rw [hbody, if_neg hlt] at herr
        cases herr
    · intro hlt
      rw [hbody, if_pos hlt]
  · intro s' hok
    rw [hbody] at hok
    by_cases hlt : b.BlockNumOnWhichBitsWereBought <
        lastBatch.BlockNumOnWhichBitsWereBought
    · rw [if_pos hlt] at hok
      cases hok
    · rw [if_neg hlt] at hok
      cases hok
      refine ⟨rfl, ?_, ?_⟩

      · show List.Pairwise (· < ·) ((s.active ++ [(m + 1, b)]).map Prod.fst)
        rw [List.map_append]
        rw [List.pairwise_append]
        refine ⟨hsorted, by simp, ?_⟩
        intro x hx y hy
        rcases List.mem_singleton.mp (by simpa using hy) with rfl
        have hxle : x ≤ m := by
          rw [hnums] at hx
          rcases List.mem_append.mp hx with hx1 | hx2
          · exact le_of_lt (hltm x hx1)
          · rcases List.mem_singleton.mp hx2 with rfl
            exact le_rfl
        omega
      · show List.Pairwise (· ≤ ·)
          ((s.active ++ [(m + 1, b)]).map (fun p => p.2.BlockNumOnWhichBitsWereBought))
        rw [List.map_append]
        rw [List.pairwise_append]
        refine ⟨hblocks, by simp, ?_⟩
        intro x hx y hy
        rcases List.mem_singleton.mp (by simpa using hy) with rfl
        have hlast : lastBatch.BlockNumOnWhichBitsWereBought ≤
            b.BlockNumOnWhichBitsWereBought := Nat.le_of_not_lt hlt
        have hxlast : x ≤ lastBatch.BlockNumOnWhichBitsWereBought := by
          have hb' := hblocks
          rw [hact, List.map_append, List.pairwise_append] at hb'
          rcases hb' with ⟨_, _, h3⟩
          rw [hact, List.map_append] at hx
          rcases List.mem_append.mp hx with hx1 | hx2
          · exact h3 x hx1 lastBatch.BlockNumOnWhichBitsWereBought (by simp)
          · rcases List.mem_singleton.mp (by simpa using hx2) with rfl
            exact le_rfl
        omega

/-- C3 witness: adding a lot bought at block 90 after a lot bought at
block 100 raises `INVALID_BLOCK_NUMBER`. -/
theorem c3_witness :
    addGamerBatch c3Store c3NewBatch = .error .INVALID_BLOCK_NUMBER :=
  (c3_add_lot_block_order c3Store [] 1 c3LastBatch c3NewBatch rfl
    (by simp [c3Store]) (by decide) (by simp [c3Store])).1.mpr (by decide)

/-- C1: concrete sell scenario.  The indexer does consume lots oldest-first,
spanning both lots (batch 1 is emptied and archived, batch 2 is left with 7
remaining), but the sale proceeds are NOT attributed proportionally
(12 : 8, i.e. 1200 and 800): `storeEventDetails` passes the event's full
`ethAmount` to `updateGamerBatch` for every consumed lot, so both batches
accumulate the full 2000 — the event's proceeds are double-counted across
the two lots. -/
theorem c1_sell_fifo_full_proceeds_per_batch :
    c1Run = .ok [(("H", "G"),
      { active := [(2, c1Batch2Final)], archive := [(1, c1Batch1Final)] })]
    ∧ c1Batch1Final.remainingBatchAmount = 0
    ∧ c1Batch2Final.remainingBatchAmount = 7
    ∧ c1Batch1Final.sellPrice = 2000
    ∧ c1Batch2Final.sellPrice = 2000
    ∧ c1Batch1Final.sellPrice ≠ 1200
    ∧ c1Batch2Final.sellPrice ≠ 800 := by
  refine ⟨rfl, by decide, by decide, by decide, by decide, by decide, by decide⟩

/-- C5: with fleet [A, B, C], the cursor at A and all three holders free
and funded, the first `selectNextFreeKeySlot` call returns B (index 1);
after a pending order is recorded for B, the next call skips B and returns
C (index 2); and with no intervening pending orders, three successive calls
return indices 1, 2, 0 — covering all three fleet indices before any
repeats. -/
theorem c5_round_robin_slot_selection :
    c5Call1.2 = some 1
    ∧ (selectNextFreeKeySlot c5Env c5Ttl c5StateAfterOrderB).2 = some 2
    ∧ c5Call2.2 = some 2
    ∧ c5Call3.2 = some 0
    ∧ [c5Call1.2, c5Call2.2, c5Call3.2].Nodup := by
  refine ⟨by decide, by decide, by decide, by decide, by decide⟩

/-- C9: for a SELL proposal re-validated against the live on-chain bit
balance: a zero balance drops the proposal; a positive balance below the
proposed quantity clamps the executed quantity down to exactly the
balance; a balance at or above the proposed quantity leaves it unchanged;
and the executed quantity never exceeds the proposed quantity. -/
theorem c9_sell_quantity_clamped_to_live_balance (bitsBalance orderQuantity : Int) :
    (bitsBalance = 0 → revalidateSellQuantity bitsBalance orderQuantity = none)
    ∧ (0 < bitsBalance → bitsBalance < orderQuantity →
        revalidateSellQuantity bitsBalance orderQuantity = some bitsBalance)
    ∧ (0 < bitsBalance → orderQuantity ≤ bitsBalance →
        revalidateSellQuantity bitsBalance orderQuantity = some orderQuantity)
    ∧ (∀ q, revalidateSellQuantity bitsBalance orderQuantity = some q →
        q ≤ orderQuantity ∧ q ≤ bitsBalance) := by
  unfold revalidateSellQuantity
  refine ⟨fun h0 => by simp [h0], fun hpos hlt => ?_, fun hpos hge => ?_, fun q hq => ?_⟩
  · rw [if_neg (by omega), if_pos hlt]
  · rw [if_neg (by omega), if_neg (by omega)]
  · by_cases h0 : bitsBalance = 0
    · simp [h0] at hq
    · rw [if_neg h0] at hq
      by_cases hlt : bitsBalance < orderQuantity
      · rw [if_pos hlt] at hq
        cases hq
        omega
      · rw [if_neg hlt] at hq
        cases hq
        omega

/-- C9 witness: live balance 3 against a proposed quantity of 10 clamps the
executed quantity to exactly 3. -/
theorem c9_witness :
    (0 : Int) < 3 ∧ (3 : Int) < 10 ∧ revalidateSellQuantity 3 10 = some 3 :=
  ⟨by decide, by decide,
   (c9_sell_quantity_clamped_to_live_balance 3 10).2.1 (by decide) (by decide)⟩

/-- C6: for a holder with no pending-order record `refreshPendingOrder`
returns null; for a holder with a record it removes the record and returns
null if and only if the record is marked mined, or its age exceeds
`maxPendingInSeconds`, or the holder's current on-chain nonce is strictly
greater than the recorded nonce; in all other cases the pending order is
returned with the stored state unchanged. -/
theorem c6_refresh_pending_order_characterization (env : TxEnv) (s : TxGoferState)
    (fleetAddress : String) :
    (lookupPendingFile s.pendingFiles fleetAddress = none →
      refreshPendingOrder env s fleetAddress = (s, none))
    ∧ (∀ pf, lookupPendingFile s.pendingFiles fleetAddress = some pf →
        (refreshPendingOrder env s fleetAddress =
            ({ s with pendingFiles := removePendingFile s.pendingFiles fleetAddress },
             none)
          ↔ (pf.minedMark = true
             ∨ env.now - pf.order.timestamp >
                 (baseConfig.maxPendingInSeconds : Int) * 1000
             ∨ env.nonceOf fleetAddress > pf.order.nonce))
        ∧ (¬ (pf.minedMark = true
              ∨ env.now - pf.order.timestamp >
                  (baseConfig.maxPendingInSeconds : Int) * 1000
              ∨ env.nonceOf fleetAddress > pf.order.nonce) →
            refreshPendingOrder env s fleetAddress = (s, some pf.order))) := by
  constructor
  · intro hnone
    unfold refreshPendingOrder
    rw [hnone]
  · intro pf hsome
    have hunfold : refreshPendingOrder env s fleetAddress =
        (if pf.minedMark then
          ({ s with pendingFiles := removePendingFile s.pendingFiles fleetAddress }, none)
        else if env.now - pf.order.timestamp >
            (baseConfig.maxPendingInSeconds : Int) * 1000 then
          ({ s with pendingFiles := removePendingFile s.pendingFiles fleetAddress }, none)
        else if env.nonceOf fleetAddress > pf.order.nonce then
          ({ s with pendingFiles := removePendingFile s.pendingFiles fleetAddress }, none)
        else (s, some pf.order)) := by
      unfold refreshPendingOrder
      rw [hsome]
    by_cases h1 : pf.minedMark
    · rw [hunfold, if_pos h1]
      exact ⟨⟨fun _ => Or.inl h1, fun _ => rfl⟩, fun hn => absurd (Or.inl h1) hn⟩
    · rw [hunfold, if_neg h1]
      by_cases h2 : env.now - pf.order.timestamp >
          (baseConfig.maxPendingInSeconds : Int) * 1000
      · rw [if_pos h2]
        exact ⟨⟨fun _ => Or.inr (Or.inl h2), fun _ => rfl⟩,
               fun hn => absurd (Or.inr (Or.inl h2)) hn⟩
      · rw [if_neg h2]
        by_cases h3 : env.nonceOf fleetAddress > pf.order.nonce
        · rw [if_pos h3]
          exact ⟨⟨fun _ => Or.inr (Or.inr h3), fun _ => rfl⟩,
                 fun hn => absurd (Or.inr (Or.inr h3)) hn⟩
        · rw [if_neg h3]
          refine ⟨⟨fun heq => absurd (congrArg Prod.snd heq) (by simp), ?_⟩, fun _ => rfl⟩
          intro hcond
          rcases hcond with hc | hc | hc
          · exact absurd hc h1
          · exact absurd hc h2
          · exact absurd hc h3

/-- C6 witness: applying the characterization to the mined-marked order. -/
theorem c6_witness :
    refreshPendingOrder c6Env c6State "A" =
      ({ c6State with pendingFiles := removePendingFile c6State.pendingFiles "A" },
       none) :=
  ((c6_refresh_pending_order_characterization c6Env c6State "A").2 c6Pf
    (by decide)).1.mpr (Or.inl (by decide))

/-- Every event fetched by `fetchEvents` starting at block `i` has block
number at least `i`: the batched ranges only cover `[i, endBlock]`. -/
theorem fetchEvents_start_le_blockNumber (chain : List TradeEventDetails)
    (endBlock batchSize : Nat) :
    ∀ i, ∀ e ∈ fetchEvents chain endBlock batchSize i, i ≤ e.blockNumber := by
  suffices h : ∀ n i, endBlock + 1 - i ≤ n →
      ∀ e ∈ fetchEvents chain endBlock batchSize i, i ≤ e.blockNumber from
    fun i => h (endBlock + 1 - i) i le_rfl
  intro n
  induction n with
  | zero =>
    intro i hi e he
    rw [fetchEvents] at he
    rw [dif_neg (by omega)] at he
    exact absurd he (List.not_mem_nil e)
  | succ n ih =>
    intro i hi e he
    rw [fetchEvents] at he
    by_cases hc : i ≤ endBlock ∧ 0 < batchSize
    · rw [dif_pos hc] at he
      rcases List.mem_append.mp he with hq | hr
      · have := (List.mem_filter.mp hq).2
        have h1 : i ≤ e.blockNumber := by
          have := Bool.and_elim_left this
          exact of_decide_eq_true this
        exact h1
      · have h2 := ih (i + batchSize) (by omega) e hr
        omega
    · rw [dif_neg hc] at he
      exact absurd he (List.not_mem_nil e)

/-- C7 (amended): on indexer start, when the ledger's maximum recorded
block B (over purchase and sale blocks of active and archived lots) is
positive, `catchupIndex` starts fetching from B + 1, and every event it
then fetches has block number strictly above B (no event at or below B is
re-applied); when the ledger is empty it starts from the configured
deployment block.  The resume block coincides with
max(B + 1, deployment block) whenever B is at least the deployment block —
but not in general, which is what `c7_counterexample` shows. -/
theorem c7_resume_block (st : Store) (chain : List TradeEventDetails) (endBlock : Nat) :
    (0 < getLatestBlockNum st →
      catchupStartBlock (getLatestBlockNum st) baseConfig.startBlock =
        getLatestBlockNum st + 1)
    ∧ (getLatestBlockNum st = 0 →
      catchupStartBlock (getLatestBlockNum st) baseConfig.startBlock =
        baseConfig.startBlock)
    ∧ (baseConfig.startBlock ≤ getLatestBlockNum st →
      catchupStartBlock (getLatestBlockNum st) baseConfig.startBlock =
        max (getLatestBlockNum st + 1) baseConfig.startBlock)
    ∧ (∀ e ∈ fetchEvents chain endBlock baseConfig.batchSize
          (getLatestBlockNum st + 1),
        getLatestBlockNum st < e.blockNumber) := by
  refine ⟨fun hpos => ?_, fun hzero => ?_, fun hge => ?_, fun e he => ?_⟩
  · unfold catchupStartBlock
    rw [if_pos hpos]
  · unfold catchupStartBlock
    rw [hzero, if_neg (by decide)]
  · unfold catchupStartBlock
    have h0 : 0 < getLatestBlockNum st := lt_of_lt_of_le (by decide) hge
    rw [if_pos h0, Nat.max_eq_left (by omega)]
  · have := fetchEvents_start_le_blockNumber chain endBlock baseConfig.batchSize
      (getLatestBlockNum st + 1) e he
    omega

/-- C7 counterexample: for a ledger whose maximum recorded block is 1, the
resume block computed by `catchupIndex` is 2, which differs from
max(1 + 1, contract deployment block) = 15992772 — the resume block does
not equal the claimed max in general. -/
theorem c7_counterexample :
    getLatestBlockNum c7CounterStore = 1
    ∧ catchupStartBlock (getLatestBlockNum c7CounterStore) baseConfig.startBlock = 2
    ∧ catchupStartBlock (getLatestBlockNum c7CounterStore) baseConfig.startBlock ≠
        max (getLatestBlockNum c7CounterStore + 1) baseConfig.startBlock := by
  refine ⟨by decide, by decide, by decide⟩

/-- C7 witness: the amended resume rule applied at a concrete ledger. -/
theorem c7_witness :
    catchupStartBlock (getLatestBlockNum c7WitnessStore) baseConfig.startBlock =
      getLatestBlockNum c7WitnessStore + 1 :=
  (c7_resume_block c7WitnessStore [] 0).1 (by decide)

/-- Removing one fleet address's pending-order file does not affect the
lookup of a different address. -/
theorem lookupPendingFile_removePendingFile_ne {files : List (String × PendingFile)}
    {a other : String} (h : a ≠ other) :
    lookupPendingFile (removePendingFile files other) a =
      lookupPendingFile files a := by
  unfold lookupPendingFile removePendingFile
  induction files with
  | nil => rfl
  | cons p ps ih =>
    rw [List.filter_cons]
    by_cases hp : p.1 = other
    · rw [if_neg (by simp [hp])]
      rw [List.find?_cons_of_neg _ (by simp [hp]; exact fun hh => h hh.symm)]
      exact ih
    · rw [if_pos (by simp [hp])]
      by_cases ha : p.1 = a
      · rw [List.find?_cons_of_pos _ (by simp [ha]),
            List.find?_cons_of_pos _ (by simp [ha])]
      · rw [List.find?_cons_of_neg _ (by simp [ha]),
            List.find?_cons_of_neg _ (by simp [ha])]
        exact ih

/-- A live pending order (not mined-marked, not expired, nonce not
advanced) is kept untouched by `refreshPendingOrder`. -/
theorem refreshPendingOrder_keeps_live {env : TxEnv} {s : TxGoferState}
    {addr : String} {pf : PendingFile}
    (hl : lookupPendingFile s.pendingFiles addr = some pf)
    (hmined : pf.minedMark = false)
    (hage : ¬ (env.now - pf.order.timestamp >
        (baseConfig.maxPendingInSeconds : Int) * 1000))
    (hnonce : ¬ (env.nonceOf addr > pf.order.nonce)) :
    refreshPendingOrder env s addr = (s, some pf.order) := by
  unfold refreshPendingOrder
  rw [hl]
  dsimp only
  rw [if_neg (by rw [hmined]; exact Bool.false_ne_true), if_neg hage, if_neg hnonce]

/-- `refreshPendingOrder` on any address keeps a live pending order of the
holder `addr` in place, and never touches the fleet address list. -/
theorem refreshPendingOrder_preserves_live {env : TxEnv} {s : TxGoferState}
    {addr : String} {pf : PendingFile} (other : String)
    (hl : lookupPendingFile s.pendingFiles addr = some pf)
    (hmined : pf.minedMark = false)
    (hage : ¬ (env.now - pf.order.timestamp >
        (baseConfig.maxPendingInSeconds : Int) * 1000))
    (hnonce : ¬ (env.nonceOf addr > pf.order.nonce)) :
    lookupPendingFile (refreshPendingOrder env s other).1.pendingFiles addr = some pf
    ∧ (refreshPendingOrder env s other).1.fleetAddresses = s.fleetAddresses
    ∧ (refreshPendingOrder env s other).1.lowBalanceCache = s.lowBalanceCache := by
  by_cases heq : other = addr
  · subst heq
    rw [refreshPendingOrder_keeps_live hl hmined hage hnonce]
    exact ⟨hl, rfl, rfl⟩
  · have hne : addr ≠ other := fun hh => heq hh.symm
    unfold refreshPendingOrder
    cases hlo : lookupPendingFile s.pendingFiles other with
    | none =>
      exact ⟨hl, rfl, rfl⟩
    | some pfo =>
      dsimp only
      by_cases h1 : pfo.minedMark
      · rw [if_pos h1]
        exact ⟨by rw [show ({ s with pendingFiles := removePendingFile s.pendingFiles other } : TxGoferState).pendingFiles = removePendingFile s.pendingFiles other from rfl, lookupPendingFile_removePendingFile_ne hne]; exact hl, rfl, rfl⟩
      · rw [if_neg h1]
        by_cases h2 : env.now - pfo.order.timestamp >
            (baseConfig.maxPendingInSeconds : Int) * 1000
        · rw [if_pos h2]
          exact ⟨by rw [show ({ s with pendingFiles := removePendingFile s.pendingFiles other } : TxGoferState).pendingFiles = removePendingFile s.pendingFiles other from rfl, lookupPendingFile_removePendingFile_ne hne]; exact hl, rfl, rfl⟩
        · rw [if_neg h2]
          by_cases h3 : env.nonceOf other > pfo.order.nonce
          · rw [if_pos h3]
            exact ⟨by rw [show ({ s with pendingFiles := removePendingFile s.pendingFiles other } : TxGoferState).pendingFiles = removePendingFile s.pendingFiles other from rfl, lookupPendingFile_removePendingFile_ne hne]; exact hl, rfl, rfl⟩
          · rw [if_neg h3]
            exact ⟨hl, rfl, rfl⟩

/-- Unfolding of the first (no-refresh) scanning pass at positive fuel.
The slot is skipped when its pending-order file exists or it is cached as
low-balance; it is returned when both balance checks pass. -/
theorem selectSlotPass_false_succ (env : TxEnv) (ttl : Int) (fuel index : Nat)
    (s : TxGoferState) :
    selectSlotPass false env ttl (fuel + 1) index s =
      (if (lookupPendingFile s.pendingFiles
            (s.fleetAddresses.getD ((index + 1) % s.fleetAddresses.length) "")).isNone then
        if isInLowBalCache ttl s.lowBalanceCache
            (s.fleetAddresses.getD ((index + 1) % s.fleetAddresses.length) "") env.now then
          selectSlotPass false env ttl fuel ((index + 1) % s.fleetAddresses.length) s
        else if env.hasEnoughERC20
              (s.fleetAddresses.getD ((index + 1) % s.fleetAddresses.length) "") &&
            env.hasEnoughGas
              (s.fleetAddresses.getD ((index + 1) % s.fleetAddresses.length) "") then
          (withCursor s ((index + 1) % s.fleetAddresses.length),
           some ((index + 1) % s.fleetAddresses.length))
        else
          selectSlotPass false env ttl fuel ((index + 1) % s.fleetAddresses.length)
            (withCache s (cacheLowBalAddress s.lowBalanceCache
              (s.fleetAddresses.getD ((index + 1) % s.fleetAddresses.length) "") env.now))
      else
        selectSlotPass false env ttl fuel ((index + 1) % s.fleetAddresses.length) s) :=
  rfl

/-- Unfolding of the second (refreshing) scanning pass at positive fuel:
identical to the first pass except that the slot's pending order is first
reconciled through `refreshPendingOrder`. -/
theorem selectSlotPass_true_succ (env : TxEnv) (ttl : Int) (fuel index : Nat)
    (s : TxGoferState) :
    selectSlotPass true env ttl (fuel + 1) index s =
      (if (refreshPendingOrder env s
            (s.fleetAddresses.getD ((index + 1) % s.fleetAddresses.length) "")).2.isNone then
        if isInLowBalCache ttl
            (refreshPendingOrder env s
              (s.fleetAddresses.getD ((index + 1) % s.fleetAddresses.length) "")).1.lowBalanceCache
            (s.fleetAddresses.getD ((index + 1) % s.fleetAddresses.length) "") env.now then
          selectSlotPass true env ttl fuel ((index + 1) % s.fleetAddresses.length)
            (refreshPendingOrder env s
              (s.fleetAddresses.getD ((index + 1) % s.fleetAddresses.length) "")).1
        else if env.hasEnoughERC20
              (s.fleetAddresses.getD ((index + 1) % s.fleetAddresses.length) "") &&
            env.hasEnoughGas
              (s.fleetAddresses.getD ((index + 1) % s.fleetAddresses.length) "") then
          (withCursor (refreshPendingOrder env s
              (s.fleetAddresses.getD ((index + 1) % s.fleetAddresses.length) "")).1
             ((index + 1) % s.fleetAddresses.length),
           some ((index + 1) % s.fleetAddresses.length))
        else
          selectSlotPass true env ttl fuel ((index + 1) % s.fleetAddresses.length)
            (withCache (refreshPendingOrder env s
                (s.fleetAddresses.getD ((index + 1) % s.fleetAddresses.length) "")).1
              (cacheLowBalAddress
                (refreshPendingOrder env s
                  (s.fleetAddresses.getD ((index + 1) % s.fleetAddresses.length) "")).1.lowBalanceCache
                (s.fleetAddresses.getD ((index + 1) % s.fleetAddresses.length) "") env.now))
      else
        selectSlotPass true env ttl fuel ((index + 1) % s.fleetAddresses.length)
          (refreshPendingOrder env s
            (s.fleetAddresses.getD ((index + 1) % s.fleetAddresses.length) "")).1) :=
  rfl

/-- The first scanning pass never returns the index of a holder that has a
pending-order file (it skips every slot whose file exists). -/
theorem selectSlotPass_false_ne (env : TxEnv) (ttl : Int) (addr : String)
    (fleet : List String) (pf : PendingFile) :
    ∀ (fuel idx : Nat) (s : TxGoferState), s.fleetAddresses = fleet →
      lookupPendingFile s.pendingFiles addr = some pf →
      ∀ k, (selectSlotPass false env ttl fuel idx s).2 = some k →
        fleet.getD k "" ≠ addr := by
  intro fuel
  induction fuel with
  | zero =>
    intro idx s hf hl k hk
    simp [selectSlotPass] at hk
  | succ fuel ih =>
    intro idx s hf hl k hk
    rw [selectSlotPass_false_succ] at hk
    by_cases hfree : (lookupPendingFile s.pendingFiles
        (s.fleetAddresses.getD ((idx + 1) % s.fleetAddresses.length) "")).isNone = true
    · rw [if_pos hfree] at hk
      have hcur_ne : s.fleetAddresses.getD ((idx + 1) % s.fleetAddresses.length) "" ≠
          addr := by
        intro hcontra
        rw [hcontra, hl] at hfree
        simp at hfree
      by_cases hcache : isInLowBalCache ttl s.lowBalanceCache
          (s.fleetAddresses.getD ((idx + 1) % s.fleetAddresses.length) "") env.now = true
      · rw [if_pos hcache] at hk
        exact ih _ s hf hl k hk
      · rw [if_neg hcache] at hk
        by_cases hbal : (env.hasEnoughERC20
              (s.fleetAddresses.getD ((idx + 1) % s.fleetAddresses.length) "") &&
            env.hasEnoughGas
              (s.fleetAddresses.getD ((idx + 1) % s.fleetAddresses.length) "")) = true
        · rw [if_pos hbal] at hk
          have hkk : (idx + 1) % s.fleetAddresses.length = k := by simpa using hk
          rw [← hkk, ← hf]
          exact hcur_ne
        · rw [if_neg hbal] at hk
          exact ih ((idx + 1) % s.fleetAddresses.length)
            (withCache s (cacheLowBalAddress s.lowBalanceCache
              (s.fleetAddresses.getD ((idx + 1) % s.fleetAddresses.length) "") env.now))
            hf hl k hk
    · rw [if_neg hfree] at hk
      exact ih _ s hf hl k hk

/-- The second scanning pass never returns the index of a holder whose
pending order is live (not mined-marked, not expired, nonce not advanced):
its refresh keeps the order, so the slot is skipped. -/
theorem selectSlotPass_true_ne (env : TxEnv) (ttl : Int) (addr : String)
    (fleet : List String) (pf : PendingFile)
    (hmined : pf.minedMark = false)
    (hage : ¬ (env.now - pf.order.timestamp >
        (baseConfig.maxPendingInSeconds : Int) * 1000))
    (hnonce : ¬ (env.nonceOf addr > pf.order.nonce)) :
    ∀ (fuel idx : Nat) (s : TxGoferState), s.fleetAddresses = fleet →
      lookupPendingFile s.pendingFiles addr = some pf →
      ∀ k, (selectSlotPass true env ttl fuel idx s).2 = some k →
        fleet.getD k "" ≠ addr := by
  intro fuel
  induction fuel with
  | zero =>
    intro idx s hf hl k hk
    simp [selectSlotPass] at hk
  | succ fuel ih =>
    intro idx s hf hl k hk
    rw [selectSlotPass_true_succ] at hk
    obtain ⟨hpres, hfleet, -⟩ := refreshPendingOrder_preserves_live
      (s.fleetAddresses.getD ((idx + 1) % s.fleetAddresses.length) "")
      hl hmined hage hnonce
    have hfleet' : (refreshPendingOrder env s
        (s.fleetAddresses.getD ((idx + 1) % s.fleetAddresses.length) "")).1.fleetAddresses =
        fleet := hfleet.trans hf
    by_cases hfree : (refreshPendingOrder env s
        (s.fleetAddresses.getD ((idx + 1) % s.fleetAddresses.length) "")).2.isNone = true
    · rw [if_pos hfree] at hk
      have hcur_ne : s.fleetAddresses.getD ((idx + 1) % s.fleetAddresses.length) "" ≠
          addr := by
        intro hcontra
        rw [hcontra, refreshPendingOrder_keeps_live hl hmined hage hnonce] at hfree
        simp at hfree
      by_cases hcache : isInLowBalCache ttl
          (refreshPendingOrder env s
            (s.fleetAddresses.getD ((idx + 1) % s.fleetAddresses.length) "")).1.lowBalanceCache
          (s.fleetAddresses.getD ((idx + 1) % s.fleetAddresses.length) "") env.now = true
      · rw [if_pos hcache] at hk
        exact ih _ _ hfleet' hpres k hk
      · rw [if_neg hcache] at hk
        by_cases hbal : (env.hasEnoughERC20
              (s.fleetAddresses.getD ((idx + 1) % s.fleetAddresses.length) "") &&
            env.hasEnoughGas
              (s.fleetAddresses.getD ((idx + 1) % s.fleetAddresses.length) "")) = true
        · rw [if_pos hbal] at hk
          have hkk : (idx + 1) % s.fleetAddresses.length = k := by simpa using hk
          rw [← hkk, ← hf]
          exact hcur_ne
        · rw [if_neg hbal] at hk
          exact ih ((idx + 1) % s.fleetAddresses.length)
            (withCache (refreshPendingOrder env s
                (s.fleetAddresses.getD ((idx + 1) % s.fleetAddresses.length) "")).1
              (cacheLowBalAddress
                (refreshPendingOrder env s
                  (s.fleetAddresses.getD ((idx + 1) % s.fleetAddresses.length) "")).1.lowBalanceCache
                (s.fleetAddresses.getD ((idx + 1) % s.fleetAddresses.length) "") env.now))
            hfleet' hpres k hk
    · rw [if_neg hfree] at hk
      exact ih _ _ hfleet' hpres k hk

/-- The first scanning pass never writes pending-order files and never
changes the fleet address list (it only moves the cursor and the
low-balance cache). -/
theorem selectSlotPass_false_preserves (env : TxEnv) (ttl : Int) :
    ∀ (fuel idx : Nat) (s : TxGoferState),
      (selectSlotPass false env ttl fuel idx s).1.pendingFiles = s.pendingFiles
      ∧ (selectSlotPass false env ttl fuel idx s).1.fleetAddresses =
          s.fleetAddresses := by
  intro fuel
  induction fuel with
  | zero =>
    intro idx s
    exact ⟨rfl, rfl⟩
  | succ fuel ih =>
    intro idx s
    rw [selectSlotPass_false_succ]
    by_cases hfree : (lookupPendingFile s.pendingFiles
        (s.fleetAddresses.getD ((idx + 1) % s.fleetAddresses.length) "")).isNone = true
    · rw [if_pos hfree]
      by_cases hcache : isInLowBalCache ttl s.lowBalanceCache
          (s.fleetAddresses.getD ((idx + 1) % s.fleetAddresses.length) "") env.now = true
      · rw [if_pos hcache]
        exact ih _ s
      · rw [if_neg hcache]
        by_cases hbal : (env.hasEnoughERC20
              (s.fleetAddresses.getD ((idx + 1) % s.fleetAddresses.length) "") &&
            env.hasEnoughGas
              (s.fleetAddresses.getD ((idx + 1) % s.fleetAddresses.length) "")) = true
        · rw [if_pos hbal]
          exact ⟨rfl, rfl⟩
        · rw [if_neg hbal]
          exact ih _ _
    · rw [if_neg hfree]
      exact ih _ s

/-- C4: after `recordPendingOrder` creates a holder's pending order, as
long as that record is present and not clearable by
`refreshPendingOrder` — not marked mined, not older than
`maxPendingInSeconds`, and the holder's on-chain nonce has not advanced
past the recorded nonce — `selectNextFreeKeySlot` never returns that
holder's fleet index: pass one skips every slot whose pending-order file
exists, and pass two's refresh keeps a live record and skips the slot. -/
theorem c4_busy_holder_never_selected (env : TxEnv) (ttl : Int)
    (s : TxGoferState) (addr : String) (pf : PendingFile)
    (hl : lookupPendingFile s.pendingFiles addr = some pf)
    (hmined : pf.minedMark = false)
    (hage : ¬ (env.now - pf.order.timestamp >
        (baseConfig.maxPendingInSeconds : Int) * 1000))
    (hnonce : ¬ (env.nonceOf addr > pf.order.nonce)) :
    ∀ k, (selectNextFreeKeySlot env ttl s).2 = some k →
      s.fleetAddresses.getD k "" ≠ addr := by
  intro k hk
  unfold selectNextFreeKeySlot at hk
  cases h1 : selectSlotPass false env ttl s.fleetAddresses.length
      s.lastChosenFleetAddrIndex s with
  | mk s1 r1 =>
    dsimp only at hk
    rw [h1] at hk
    cases r1 with
    | some idx =>
      refine selectSlotPass_false_ne env ttl addr s.fleetAddresses pf
        s.fleetAddresses.length s.lastChosenFleetAddrIndex s rfl hl k ?_
      rw [h1]
      simpa using hk
    | none =>
      have hpres := selectSlotPass_false_preserves env ttl s.fleetAddresses.length
        s.lastChosenFleetAddrIndex s
      rw [h1] at hpres
      have hl1 : lookupPendingFile s1.pendingFiles addr = some pf := by
        rw [hpres.1]; exact hl
      exact selectSlotPass_true_ne env ttl addr s.fleetAddresses pf hmined hage hnonce
        s1.fleetAddresses.length s.lastChosenFleetAddrIndex s1 hpres.2 hl1 k
        (by simpa using hk)

/-- C4 witness: with fleet [A, B] and a live pending order for B, slot
selection returns index 0 (holder A), and the theorem guarantees the
returned index is not B's. -/
theorem c4_witness :
    (selectNextFreeKeySlot c4Env 10 c4State).2 = some 0
    ∧ c4State.fleetAddresses.getD 0 "" ≠ "B" :=
  ⟨by decide,
   c4_busy_holder_never_selected c4Env 10 c4State "B" c4Pf (by decide) (by decide)
     (by decide) (by decide) 0 (by decide)⟩

/-- `processNext` on an empty queue only clears the `processing` flag. -/
theorem processNextStep_nil (s : TaskQueueState) (h : s.pending = []) :
    processNextStep s = { s with processing := false } := by
  unfold processNextStep
  rw [h]

/-- `processNext` on a non-empty queue shifts the head task into
execution. -/
theorem processNextStep_cons (s : TaskQueueState) (t : QueueTask)
    (rest : List QueueTask) (h : s.pending = t :: rest) :
    processNextStep s =
      { s with processing := true, pending := rest,
               running := s.running ++ [t] } := by
  unfold processNextStep
  rw [h]

/-- One queue transition preserves the queue invariant, the arrival list
extended by whatever the event enqueued. -/
theorem queueStep_inv {arr : List QueueTask} {s s' : TaskQueueState}
    {ev : QueueEvent} (hinv : QueueInv arr s) (hstep : queueStep s ev = some s') :
    QueueInv (arr ++ queueArrivals [ev]) s' := by
  obtain ⟨hone, hflag, hidle, hfifo⟩ := hinv
  cases ev with
  | add t =>
    simp only [queueStep] at hstep
    by_cases hp : s.processing = true
    · rw [if_pos hp] at hstep
      cases hstep
      refine ⟨hone, fun _ => hp, ?_, ?_⟩
      · intro hfalse
        exact absurd (hp.symm.trans hfalse) (by simp)
      · show s.done.map CompletionRec.task ++ s.running ++ (s.pending ++ [t]) =
          arr ++ queueArrivals [.add t]
        rw [← List.append_assoc, hfifo]
        simp [queueArrivals]
    · rw [if_neg hp] at hstep
      obtain ⟨hpend, hrun⟩ := hidle (by revert hp; cases s.processing <;> simp)
      rw [processNextStep_cons _ t [] (by show s.pending ++ [t] = _; rw [hpend]; rfl)]
        at hstep
      cases hstep
      refine ⟨?_, fun _ => rfl, ?_, ?_⟩
      · show (s.running ++ [t]).length ≤ 1
        simp [hrun]
      · intro hfalse
        exact absurd hfalse (by simp)
      · show s.done.map CompletionRec.task ++ (s.running ++ [t]) ++ [] =
          arr ++ queueArrivals [.add t]
        rw [hrun, hpend] at hfifo
        simp only [List.append_nil] at hfifo
        rw [hrun]
        simp [hfifo, queueArrivals]
  | taskReturns =>
    simp only [queueStep] at hstep
    cases hrun : s.running with
    | nil => rw [hrun] at hstep; cases hstep
    | cons t rest =>
      rw [hrun] at hstep
      have hrest : rest = [] := by
        rw [hrun] at hone
        simpa using hone
      subst hrest
      dsimp only at hstep
      cases hpend : s.pending with
      | nil =>
        rw [processNextStep_nil _ (by exact hpend)] at hstep
        cases hstep
        refine ⟨by simp, ?_, ?_, ?_⟩
        · intro hr
          exact absurd rfl hr
        · intro hfl
          exact ⟨hpend, rfl⟩
        show (s.done ++ [_]).map CompletionRec.task ++ [] ++ s.pending =
          arr ++ queueArrivals [.taskReturns]
        rw [hrun, hpend] at hfifo
        simp only [List.append_nil] at hfifo
        rw [hpend]
        simp only [List.map_append, List.append_nil, queueArrivals]
        simpa using hfifo
      | cons p ps =>
        rw [processNextStep_cons _ p ps (by exact hpend)] at hstep
        cases hstep
        refine ⟨by simp, fun _ => rfl, ?_, ?_⟩
        · intro hfalse
          exact absurd hfalse (by simp)
        show (s.done ++ [_]).map CompletionRec.task ++ ([] ++ [p]) ++ ps =
          arr ++ queueArrivals [.taskReturns]
        rw [hrun, hpend] at hfifo
        simp only [List.map_append, queueArrivals, List.append_nil] at hfifo ⊢
        rw [← hfifo]
        simp

/-- The initial queue state satisfies the invariant with no arrivals. -/
theorem queueInv_init : QueueInv [] initQueueState := by
  refine ⟨by simp [initQueueState], ?_, fun _ => ⟨rfl, rfl⟩, rfl⟩
  intro hr
  exact absurd rfl hr

/-- Running a trace of queue events preserves the invariant, extended by
the trace's arrivals. -/
theorem runQueue_inv : ∀ (evs : List QueueEvent) (arr : List QueueTask)
    (s s' : TaskQueueState), QueueInv arr s → runQueue s evs = some s' →
    QueueInv (arr ++ queueArrivals evs) s' := by
  intro evs
  induction evs with
  | nil =>
    intro arr s s' hinv hr
    cases hr
    simpa [queueArrivals] using hinv
  | cons ev evs ih =>
    intro arr s s' hinv hr
    rw [runQueue] at hr
    cases hst : queueStep s ev with
    | none => rw [hst] at hr; cases hr
    | some s1 =>
      rw [hst] at hr
      have h1 := queueStep_inv hinv hst
      have h2 := ih (arr ++ queueArrivals [ev]) s1 s' h1 hr
      cases ev with
      | add t =>
        simpa [queueArrivals, List.append_assoc] using h2
      | taskReturns =>
        simpa [queueArrivals] using h2

/-- Every queue transition only ever appends to the completion history. -/
theorem queueStep_done_prefix {s s' : TaskQueueState} {ev : QueueEvent}
    (hstep : queueStep s ev = some s') :
    ∃ l, s'.done = s.done ++ l := by
  cases ev with
  | add t =>
    simp only [queueStep] at hstep
    by_cases hp : s.processing = true
    · rw [if_pos hp] at hstep
      cases hstep
      exact ⟨[], by simp⟩
    · rw [if_neg hp] at hstep
      cases hstep
      unfold processNextStep
      cases hpe : s.pending ++ [t] with
      | nil => exact ⟨[], by simp⟩
      | cons p ps => exact ⟨[], by simp⟩
  | taskReturns =>
    simp only [queueStep] at hstep
    cases hrun : s.running with
    | nil => rw [hrun] at hstep; cases hstep
    | cons t rest =>
      rw [hrun] at hstep
      dsimp only at hstep
      cases hstep
      unfold processNextStep
      cases hpe : s.pending with
      | nil =>
        exact ⟨[{ task := t, settlement :=
          (match t.run with
           | .ok _ => some Settlement.resolved
           | .error _ => none) }], by simp⟩
      | cons p ps =>
        exact ⟨[{ task := t, settlement :=
          (match t.run with
           | .ok _ => some Settlement.resolved
           | .error _ => none) }], by simp⟩

/-- Running a trace only ever appends to the completion history. -/
theorem runQueue_done_prefix : ∀ (evs : List QueueEvent) (s s' : TaskQueueState),
    runQueue s evs = some s' → ∃ l, s'.done = s.done ++ l := by
  intro evs
  induction evs with
  | nil =>
    intro s s' hr
    cases hr
    exact ⟨[], by simp⟩
  | cons ev evs ih =>
    intro s s' hr
    rw [runQueue] at hr
    cases hst : queueStep s ev with
    | none => rw [hst] at hr; cases hr
    | some s1 =>
      rw [hst] at hr
      obtain ⟨l1, hl1⟩ := queueStep_done_prefix hst
      obtain ⟨l2, hl2⟩ := ih s1 s' hr
      exact ⟨l1 ++ l2, by rw [hl2, hl1, List.append_assoc]⟩

/-- A queue transition records no settlement for a task whose execution
threw (the `reject(error)` call is commented out in the source). -/
theorem queueStep_errored_unsettled {s s' : TaskQueueState} {ev : QueueEvent}
    (hprev : ∀ rec ∈ s.done, (∃ m, rec.task.run = .error m) → rec.settlement = none)
    (hstep : queueStep s ev = some s') :
    ∀ rec ∈ s'.done, (∃ m, rec.task.run = .error m) → rec.settlement = none := by
  obtain ⟨l, hl⟩ := queueStep_done_prefix hstep
  cases ev with
  | add t =>
    simp only [queueStep] at hstep
    by_cases hp : s.processing = true
    · rw [if_pos hp] at hstep
      cases hstep
      exact hprev
    · rw [if_neg hp] at hstep
      cases hstep
      intro rec hrec herr
      refine hprev rec ?_ herr
      revert hrec
      unfold processNextStep
      cases hpe : s.pending ++ [t] with
      | nil => exact fun hrec => hrec
      | cons p ps => exact fun hrec => hrec
  | taskReturns =>
    simp only [queueStep] at hstep
    cases hrun : s.running with
    | nil => rw [hrun] at hstep; cases hstep
    | cons t rest =>
      rw [hrun] at hstep
      dsimp only at hstep
      cases hstep
      intro rec hrec herr
      have hrec' : rec ∈ s.done ++ [{ task := t, settlement :=
          (match t.run with
           | .ok _ => some Settlement.resolved
           | .error _ => none) }] := by
        revert hrec
        unfold processNextStep
        cases hpe : s.pending with
        | nil => exact fun hrec => hrec
        | cons p ps => exact fun hrec => hrec
      rcases List.mem_append.mp hrec' with hold | hnew
      · exact hprev rec hold herr
      · rcases List.mem_singleton.mp hnew with rfl
        obtain ⟨m, hm⟩ := herr
        show (match t.run with
              | .ok _ => some Settlement.resolved
              | .error _ => none) = none
        rw [hm]

/-- Along any trace from the initial queue, a completed task that threw
has no settlement recorded. -/
theorem runQueue_errored_unsettled : ∀ (evs : List QueueEvent)
    (s s' : TaskQueueState),
    (∀ rec ∈ s.done, (∃ m, rec.task.run = .error m) → rec.settlement = none) →
    runQueue s evs = some s' →
    ∀ rec ∈ s'.done, (∃ m, rec.task.run = .error m) → rec.settlement = none := by
  intro evs
  induction evs with
  | nil =>
    intro s s' hprev hr
    cases hr
    exact hprev
  | cons ev evs ih =>
    intro s s' hprev hr
    rw [runQueue] at hr
    cases hst : queueStep s ev with
    | none => rw [hst] at hr; cases hr
    | some s1 =>
      rw [hst] at hr
      exact ih s1 s' (queueStep_errored_unsettled hprev hst) hr

/-- C8: both exported rule-evaluation entry points (`evaluateAndInvokeBuy`
and `evaluateAndInvokeSell`), from any trigger source, perform exactly one
`add` on the single shared task queue; every reachable queue state keeps
the completed, executing and queued tasks in FIFO arrival order with at
most one task executing at any instant; and a task whose execution throws
is logged and the queue immediately starts the next enqueued task. -/
theorem c8_shared_fifo_one_at_a_time_queue :
    (∀ (t : QueueTask) (sharedTaskQueue : TaskQueueState),
      evaluateAndInvokeBuy t sharedTaskQueue =
        queueStep sharedTaskQueue (.add t)
      ∧ evaluateAndInvokeSell t sharedTaskQueue =
        queueStep sharedTaskQueue (.add t))
    ∧ (∀ (evs : List QueueEvent) (s : TaskQueueState),
      runQueue initQueueState evs = some s →
      s.done.map CompletionRec.task ++ s.running ++ s.pending = queueArrivals evs
      ∧ s.running.length ≤ 1)
    ∧ (∀ (s : TaskQueueState) (t : QueueTask) (m : String) (next : QueueTask)
        (rest : List QueueTask),
      s.running = [t] → t.run = .error m → s.pending = next :: rest →
      ∃ s', queueStep s .taskReturns = some s'
        ∧ s'.errorLog = s.errorLog ++ [m]
        ∧ s'.running = [next]
        ∧ s'.pending = rest
        ∧ s'.processing = true) := by
  refine ⟨fun t q => ⟨rfl, rfl⟩, ?_, ?_⟩
  · intro evs s hr
    have hinv := runQueue_inv evs [] initQueueState s queueInv_init hr
    exact ⟨by simpa using hinv.2.2.2, hinv.1⟩
  · intro s t m next rest hrun herr hpend
    refine ⟨processNextStep
      { s with running := [],
               done := s.done ++ [{ task := t, settlement := none }],
               errorLog := s.errorLog ++ [m] }, ?_, ?_⟩
    · simp only [queueStep]
      rw [hrun]
      dsimp only
      rw [herr]
    · rw [processNextStep_cons _ next rest (by exact hpend)]
      exact ⟨rfl, by simp, rfl, rfl⟩

/-- C8 witness: the concrete trace — enqueue a throwing task, enqueue a
succeeding task, run both to completion — satisfies the FIFO and
mutual-exclusion conclusions. -/
theorem c8_witness :
    runQueue initQueueState c8Trace = some c8Final
    ∧ (c8Final.done.map CompletionRec.task ++ c8Final.running ++ c8Final.pending =
        queueArrivals c8Trace
      ∧ c8Final.running.length ≤ 1) :=
  ⟨by decide, c8_shared_fifo_one_at_a_time_queue.2.1 c8Trace c8Final (by decide)⟩

/-- C10: along any trace of the shared queue, the promise returned by
`TaskQueue.add` for a task whose execution throws is never settled — it is
not resolved and (because `reject(error)` is commented out) not rejected —
and it stays unsettled forever (completion records are append-only), even
though the queue continues with the next enqueued task. -/
theorem c10_errored_add_promise_never_settles :
    (∀ (evs : List QueueEvent) (s : TaskQueueState),
      runQueue initQueueState evs = some s →
      ∀ rec ∈ s.done, (∃ m, rec.task.run = .error m) → rec.settlement = none)
    ∧ (∀ (s : TaskQueueState) (evs : List QueueEvent) (s' : TaskQueueState),
      runQueue s evs = some s' → ∃ l, s'.done = s.done ++ l)
    ∧ (∀ (s : TaskQueueState) (t : QueueTask) (m : String) (next : QueueTask)
        (rest : List QueueTask),
      s.running = [t] → t.run = .error m → s.pending = next :: rest →
      ∃ s', queueStep s .taskReturns = some s'
        ∧ s'.done = s.done ++ [{ task := t, settlement := none }]
        ∧ s'.running = [next]) := by
  refine ⟨?_, ?_, ?_⟩
  · intro evs s hr
    refine runQueue_errored_unsettled evs initQueueState s ?_ hr
    intro rec hrec
    exact absurd hrec (by simp [initQueueState])
  · intro s evs s' hr
    exact runQueue_done_prefix evs s s' hr
  · intro s t m next rest hrun herr hpend
    refine ⟨processNextStep
      { s with running := [],
               done := s.done ++ [{ task := t, settlement := none }],
               errorLog := s.errorLog ++ [m] }, ?_, ?_, ?_⟩
    · simp only [queueStep]
      rw [hrun]
      dsimp only
      rw [herr]
    · rw [processNextStep_cons _ next rest (by exact hpend)]
    · rw [processNextStep_cons _ next rest (by exact hpend)]
      simp

/-- C10 witness: on the concrete trace, the throwing task's completion
record carries no settlement — its promise was neither resolved nor
rejected. -/
theorem c10_witness :
    runQueue initQueueState c10Trace = some c10Final
    ∧ ({ task := c10ErrTask, settlement := none } : CompletionRec) ∈ c10Final.done
    ∧ ({ task := c10ErrTask, settlement := none } : CompletionRec).settlement =
        none :=
  ⟨by decide, by decide,
   c10_errored_add_promise_never_settles.1 c10Trace c10Final (by decide)
     { task := c10ErrTask, settlement := none } (by decide) ⟨"kaput", by decide⟩⟩

end Bithoven
